import Mathlib

/-! Shallow embedding of the core of google/addlicense.

File contents are modelled as `List Char`, one `Char` per byte (all inputs of
interest are ASCII, and the Go code treats the buffer byte-wise).  Pure Go
helpers become Lean functions; the file system is made explicit: the mutate
path takes the file content as an argument and returns the content that ends
up on disk, together with the modified flag and the error, mirroring
`addLicense` in the source.  The file mode is only passed through to the
write call in Go and never influences the produced bytes, so it is omitted.
-/

namespace AddLicense

/-- ASCII branch of Go `bytes.ToLower` / `strings.ToLower` (all scanned
keywords and markers are ASCII). -/
def toLowerAscii (c : Char) : Char :=
  if 'A' ≤ c ∧ c ≤ 'Z' then Char.ofNat (c.toNat + 32) else c

def toLowerStr (l : List Char) : List Char := l.map toLowerAscii

/-- Model of `[\d]` in the `reLicense` regular expression, restricted to ASCII digits
as in Go (`\d` is `[0-9]`). -/
def isDigitChar (c : Char) : Bool := decide ('0' ≤ c ∧ c ≤ '9')

/-- Go `unicode.IsSpace` on the Latin-1 range (the only characters the
trimmed header lines can contain). -/
def goIsSpace (c : Char) : Bool :=
  decide (c = ' ' ∨ c = '\t' ∨ c = '\n' ∨ c = Char.ofNat 11 ∨
          c = Char.ofNat 12 ∨ c = '\r' ∨ c = Char.ofNat 133 ∨ c = Char.ofNat 160)

/-- Go `strings.TrimRightFunc(s, unicode.IsSpace)` used in `executeTemplate`. -/
def trimRightSpace (l : List Char) : List Char :=
  (l.reverse.dropWhile goIsSpace).reverse

/-- Go `dropCR` of `bufio.ScanLines`: strip one trailing carriage return. -/
def dropCR (l : List Char) : List Char :=
  if l.getLast? = some '\r' then l.dropLast else l

/-- The segments of a byte sequence delimited by newline characters
(including empty ones and the final segment).  These are exactly the regions
the `(?m)` anchors `^`/`$` of Go regexps delimit. -/
def splitLines : List Char → List (List Char)
  | [] => [[]]
  | c :: cs =>
    if c = '\n' then [] :: splitLines cs
    else
      match splitLines cs with
      | [] => [[c]]
      | s :: ss => (c :: s) :: ss

/-- The token stream of `bufio.Scanner` with the default `ScanLines` split:
lines without their terminators, a trailing `\r` stripped per line, no token
for the empty tail after a final newline, and no token at all for empty
input. -/
def scanLines (l : List Char) : List (List Char) :=
  if l = [] then []
  else
    let s := splitLines l
    (if s.getLast? = some [] then s.dropLast else s).map dropCR

/-- Go `bytes.Index(b, pat)` as an option: index of the first occurrence of
`pat` as a contiguous subsequence of `b` (`none` for Go result `-1`). -/
def indexOfSub (b pat : List Char) : Option Nat :=
  if pat.isPrefixOf b then some 0
  else
    match b with
    | [] => none
    | _ :: cs => (indexOfSub cs pat).map (· + 1)

/-- Go `bytes.Contains(b, pat)`, which is `bytes.Index(b, pat) != -1`. -/
def containsSub (b pat : List Char) : Bool := (indexOfSub b pat).isSome

/-- The `b[:n]` slice with `n := 1000` capped at `len(b)`, the idiom used by
`hasLicense` and `parseLicenseYear`. -/
def head1000 (b : List Char) : List Char :=
  b.take (if b.length < 1000 then b.length else 1000)

def kwCopyright : List Char := "copyright".toList
def kwMozilla : List Char := "mozilla public".toList
def kwSPDX : List Char := "spdx-license-identifier".toList

/-- Source `hasLicense` (tmpl_test.go:531-539, the newest snapshot in the
repository, which also scans for the SPDX identifier): case-insensitive
search for one of three keywords in the first 1000 bytes. -/
def hasLicense (b : List Char) : Bool :=
  containsSub (toLowerStr (head1000 b)) kwCopyright ||
  containsSub (toLowerStr (head1000 b)) kwMozilla ||
  containsSub (toLowerStr (head1000 b)) kwSPDX

def codeGenMid : List Char := " Code generated ".toList
def codeGenEnd : List Char := " DO NOT EDIT.".toList
def cargoRazeLine : List Char := "DO NOT EDIT! Replaced on runs of cargo-raze".toList

/-- One line matches `^.{1,2} Code generated .* DO NOT EDIT\.$` with the
leading wildcard consuming exactly `k` characters (`k` is 1 or 2 at the call
sites).  `.` never matches a newline and the argument is a newline-free
segment, so the wildcard conditions are pure length conditions. -/
def matchCodeGenFrom (k : Nat) (l : List Char) : Bool :=
  decide (k + codeGenMid.length + codeGenEnd.length ≤ l.length) &&
  codeGenMid.isPrefixOf (l.drop k) &&
  codeGenEnd.isSuffixOf l

/-- Source `isGenerated`, that is `goGenerated.Match(b) || cargoRazeGenerated.Match(b)`, with
the two anchored multi-line patterns of the source. -/
def isGenerated (b : List Char) : Bool :=
  (splitLines b).any (fun l => matchCodeGenFrom 1 l || matchCodeGenFrom 2 l) ||
  (splitLines b).any (fun l => l == cargoRazeLine)

/-- The `head` table of recognized leading-line markers
(tmpl_test.go:491-500). -/
def headMarkers : List (List Char) :=
  ["#!".toList, "<?xml".toList, "<!doctype".toList, "# encoding:".toList,
   "# frozen_string_literal:".toList, "<?php".toList, "# escape".toList,
   "# syntax".toList]

/-- The first line of `b` up to and including its newline (the whole of `b`
if it has no newline), as built by the loop in `hashBang`. -/
def firstLine : List Char → List Char
  | [] => []
  | c :: cs => if c = '\n' then [c] else c :: firstLine cs

/-- Source `hashBang`: return the first line when it starts, case-insensitively,
with one of the markers, else nil. -/
def hashBang (b : List Char) : List Char :=
  let line := firstLine b
  if headMarkers.any (fun h => h.isPrefixOf (toLowerStr line)) then line else []

/-- Source `executeTemplate` (tmpl.go:65-83) given the already-executed template
output `body` (the template and data are fixed per run; the escaping
behaviour of the execution step itself is modelled separately): wrap each
scanned line with the comment style and terminate with a blank line. -/
def executeTemplate (body top mid bot : List Char) : List Char :=
  let out1 : List Char := if top ≠ [] then top ++ ['\n'] else []
  let out2 := (scanLines body).foldl
    (fun acc line => acc ++ (trimRightSpace (mid ++ line) ++ ['\n'])) out1
  let out3 := if bot ≠ [] then out2 ++ (bot ++ ['\n']) else out2
  out3 ++ ['\n']

/-- Unix `filepath.Base` without the volume handling. -/
def filepathBase (p : List Char) : List Char :=
  if p = [] then ".".toList
  else
    let q := (p.reverse.dropWhile (fun c => c = '/')).reverse
    if q = [] then "/".toList
    else (q.reverse.takeWhile (fun c => c ≠ '/')).reverse

/-- Unix `filepath.Ext`: the suffix of the final path element from its last
dot, empty if that element has no dot. -/
def filepathExt (p : List Char) : List Char :=
  let revTail := p.reverse.takeWhile (fun c => c ≠ '/')
  let afterDot := revTail.takeWhile (fun c => c ≠ '.')
  if afterDot.length = revTail.length then []
  else '.' :: afterDot.reverse

/-- Source `fileExtension` (tmpl_test.go:484-489): lowercased extension, or the
lowercased basename for extension-less names such as `dockerfile`. -/
def fileExtension (name : List Char) : List Char :=
  let v := filepathExt name
  if v ≠ [] then toLowerStr v else toLowerStr (filepathBase name)

/-- The extension/basename to comment-style table of `licenseHeader`
(tmpl_test.go:454-482).  `none` means the file type is unrecognized. -/
def styleFor (key : List Char) : Option (List Char × List Char × List Char) :=
  if ([".c", ".h", ".gv"].map String.toList).contains key then
    some ("/*".toList, " * ".toList, " */".toList)
  else if ([".js", ".mjs", ".cjs", ".jsx", ".tsx", ".css", ".scss", ".sass",
            ".tf", ".ts"].map String.toList).contains key then
    some ("/**".toList, " * ".toList, " */".toList)
  else if ([".cc", ".cpp", ".cs", ".go", ".hcl", ".hh", ".hpp", ".java",
            ".m", ".mm", ".proto", ".rs", ".scala", ".swift", ".dart",
            ".groovy", ".kt", ".kts", ".v", ".sv"].map String.toList).contains key then
    some ([], "// ".toList, [])
  else if ([".py", ".sh", ".yaml", ".yml", ".dockerfile", "dockerfile",
            ".rb", "gemfile", ".tcl", ".bzl"].map String.toList).contains key then
    some ([], "# ".toList, [])
  else if ([".el", ".lisp"].map String.toList).contains key then
    some ([], ";; ".toList, [])
  else if ([".erl"].map String.toList).contains key then
    some ([], "% ".toList, [])
  else if ([".hs", ".sql", ".sdl"].map String.toList).contains key then
    some ([], "-- ".toList, [])
  else if ([".html", ".xml", ".vue", ".wxi", ".wxl", ".wxs"].map String.toList).contains key then
    some ("<!--".toList, " ".toList, "-->".toList)
  else if ([".php"].map String.toList).contains key then
    some ([], "// ".toList, [])
  else if ([".ml", ".mli", ".mll", ".mly"].map String.toList).contains key then
    some ("(**".toList, "   ".toList, "*)".toList)
  else none

/-- Source `licenseHeader` with the template execution result `body` fixed:
`none` for unrecognized file types, otherwise the rendered header. -/
def licenseHeader (path body : List Char) : Option (List Char) :=
  match styleFor (fileExtension path) with
  | none => none
  | some (top, mid, bot) => some (executeTemplate body top mid bot)

/-- The submatch triple of one match of
`reLicense = (([\d]{4})-)?([\d]{4})`: the whole match, group 2 (the range
start, empty when the optional range prefix is absent) and group 3 (the
trailing year). -/
structure YearMatch where
  raw : List Char
  sub2 : List Char
  sub3 : List Char
deriving DecidableEq, Repr

/-- Attempt of `reLicense` anchored at the start of `l`, with the greedy
optional group tried first exactly as the Go engine does. -/
def matchAt (l : List Char) : Option YearMatch :=
  if (l.take 4).length = 4 ∧ (l.take 4).all isDigitChar then
    if (l.drop 4).take 1 = ['-'] ∧ ((l.drop 5).take 4).length = 4 ∧
        ((l.drop 5).take 4).all isDigitChar then
      some ⟨l.take 9, l.take 4, (l.drop 5).take 4⟩
    else some ⟨l.take 4, [], l.take 4⟩
  else none

/-- Leftmost match of `reLicense` in `l` with its start offset (the
first element of `FindAllSubmatch`). -/
def findYearAux : List Char → Option (Nat × YearMatch)
  | [] => none
  | c :: cs =>
    match matchAt (c :: cs) with
    | some m => some (0, m)
    | none => (findYearAux cs).map (fun pm => (pm.1 + 1, pm.2))

/-- Source `licenseYear` (tmpl_test.go:547-551). -/
structure LicenseYear where
  creation : List Char
  lastModification : List Char
  currentString : List Char
deriving DecidableEq, Repr

/-- Source `parseLicenseYear` (tmpl_test.go:554-575): first match of `reLicense`
within the first 1000 bytes; `creation` falls back to the trailing year when
the range prefix is absent. -/
def parseLicenseYear (b : List Char) : Option LicenseYear :=
  match findYearAux (head1000 b) with
  | none => none
  | some (_, m) =>
    some ⟨if m.sub2 ≠ [] then m.sub2 else m.sub3, m.sub3, m.raw⟩

/-- Source `isOutdatedLicense` (tmpl_test.go:578-584). -/
def isOutdatedLicense (b currentYear : List Char) : Bool :=
  match parseLicenseYear b with
  | some years => years.lastModification != currentYear
  | none => false

def unparsableMsg : List Char := "cannot parse license header".toList

/-- Source `updateExistingLicense` (tmpl_test.go:587-602), returning the Go pair
`([]byte, error)`.  The index of the first occurrence of the matched text is
always defined when reached (the text is a substring of a prefix of `b`), so
the `getD 0` default is never used. -/
def updateExistingLicense (b currentYear : List Char) : List Char × Option (List Char) :=
  match parseLicenseYear b with
  | none => ([], some unparsableMsg)
  | some years =>
    if years.creation = currentYear ∨ years.lastModification = currentYear then
      (b, none)
    else
      let i := (indexOfSub b years.currentString).getD 0
      let newYearString := years.creation ++ ('-' :: currentYear)
      (b.take i ++ newYearString ++ b.drop (i + years.currentString.length), none)

/-- A template placeholder `.field` wrapped in double braces, written with
explicit character codes for the brace characters. -/
def ph (field : List Char) : List Char :=
  [Char.ofNat 123, Char.ofNat 123, '.'] ++ field ++ [Char.ofNat 125, Char.ofNat 125]

/-- Source `tmplApache` (tmpl.go:85-97). -/
def tmplApache : List Char :=
  "Copyright ".toList ++ ph "Year".toList ++ " ".toList ++ ph "Holder".toList ++
  ("\n\nLicensed under the Apache License, Version 2.0 (the \"License\");\n" ++
   "you may not use this file except in compliance with the License.\n" ++
   "You may obtain a copy of the License at\n\n" ++
   "     http://www.apache.org/licenses/LICENSE-2.0\n\n" ++
   "Unless required by applicable law or agreed to in writing, software\n" ++
   "distributed under the License is distributed on an \"AS IS\" BASIS,\n" ++
   "WITHOUT WARRANTIES OR CONDITIONS OF ANY KIND, either express or implied.\n" ++
   "See the License for the specific language governing permissions and\n" ++
   "limitations under the License.").toList

/-- Source `tmplBSD` (tmpl.go:99-101). -/
def tmplBSD : List Char :=
  "Copyright (c) ".toList ++ ph "Year".toList ++ " ".toList ++ ph "Holder".toList ++
  (" All rights reserved.\n" ++
   "Use of this source code is governed by a BSD-style\n" ++
   "license that can be found in the LICENSE file.").toList

/-- Source `tmplMIT` (tmpl.go:103-120). -/
def tmplMIT : List Char :=
  "Copyright (c) ".toList ++ ph "Year".toList ++ " ".toList ++ ph "Holder".toList ++
  ("\n\nPermission is hereby granted, free of charge, to any person obtaining a copy of\n" ++
   "this software and associated documentation files (the \"Software\"), to deal in\n" ++
   "the Software without restriction, including without limitation the rights to\n" ++
   "use, copy, modify, merge, publish, distribute, sublicense, and/or sell copies of\n" ++
   "the Software, and to permit persons to whom the Software is furnished to do so,\n" ++
   "subject to the following conditions:\n\n" ++
   "The above copyright notice and this permission notice shall be included in all\n" ++
   "copies or substantial portions of the Software.\n\n" ++
   "THE SOFTWARE IS PROVIDED \"AS IS\", WITHOUT WARRANTY OF ANY KIND, EXPRESS OR\n" ++
   "IMPLIED, INCLUDING BUT NOT LIMITED TO THE WARRANTIES OF MERCHANTABILITY, FITNESS\n" ++
   "FOR A PARTICULAR PURPOSE AND NONINFRINGEMENT. IN NO EVENT SHALL THE AUTHORS OR\n" ++
   "COPYRIGHT HOLDERS BE LIABLE FOR ANY CLAIM, DAMAGES OR OTHER LIABILITY, WHETHER\n" ++
   "IN AN ACTION OF CONTRACT, TORT OR OTHERWISE, ARISING FROM, OUT OF OR IN\n" ++
   "CONNECTION WITH THE SOFTWARE OR THE USE OR OTHER DEALINGS IN THE SOFTWARE.").toList

/-- Source `tmplMPL` (tmpl.go:122-124). -/
def tmplMPL : List Char :=
  ("This Source Code Form is subject to the terms of the Mozilla Public\n" ++
   "License, v. 2.0. If a copy of the MPL was not distributed with this\n" ++
   "file, You can obtain one at https://mozilla.org/MPL/2.0/.").toList

/-- The `licenseTemplate` registry (tmpl.go:27-32), an exact-keyed Go map. -/
def licenseTemplate : List (List Char × List Char) :=
  [("apache".toList, tmplApache), ("mit".toList, tmplMIT),
   ("bsd".toList, tmplBSD), ("mpl".toList, tmplMPL)]

/-- Source `fetchTemplate` (tmpl.go:44-61).  Reading the optional template file is
modelled by passing its contents; a missing map key yields the empty string
(the Go zero value), which triggers the unknown-license error. -/
def fetchTemplate (license : List Char) (templateFile : Option (List Char)) :
    Except (List Char) (List Char) :=
  match templateFile with
  | some contents => .ok contents
  | none =>
    let t := (licenseTemplate.lookup license).getD []
    if t = [] then
      .error ("unknown license: \"".toList ++ license ++ "\"".toList)
    else .ok t

/-- Source `licenseData` (the data a license template is executed against). -/
structure licenseData where
  Year : List Char
  Holder : List Char
  SPDXID : List Char
deriving DecidableEq, Repr

/-- A parsed license template: literal segments and field references. -/
inductive TmplItem where
  | lit : List Char → TmplItem
  | fieldYear : TmplItem
  | fieldHolder : TmplItem
  | fieldSPDXID : TmplItem
deriving DecidableEq, Repr

/-- Execution as by `text/template`: fields are substituted verbatim. -/
def renderTextTemplate (t : List TmplItem) (d : licenseData) : List Char :=
  (t.map (fun it =>
    match it with
    | .lit s => s
    | .fieldYear => d.Year
    | .fieldHolder => d.Holder
    | .fieldSPDXID => d.SPDXID)).flatten

/-- The HTML text-context escaper of `html/template` on one character. -/
def htmlEscapeChar (c : Char) : List Char :=
  if c = '&' then "&amp;".toList
  else if c = '<' then "&lt;".toList
  else if c = '>' then "&gt;".toList
  else if c = '"' then "&#34;".toList
  else if c = Char.ofNat 39 then "&#39;".toList
  else [c]

def htmlEscape (l : List Char) : List Char := (l.map htmlEscapeChar).flatten

/-- Execution as by `html/template`, the package imported at tmpl.go:21: interpolated
fields pass through the contextual HTML escaper. -/
def renderHTMLTemplate (t : List TmplItem) (d : licenseData) : List Char :=
  (t.map (fun it =>
    match it with
    | .lit s => s
    | .fieldYear => htmlEscape d.Year
    | .fieldHolder => htmlEscape d.Holder
    | .fieldSPDXID => htmlEscape d.SPDXID)).flatten

/-- Result of the mutate path on one file: the returned modified flag, the
bytes that end up on disk, and the returned error. -/
structure AddResult where
  modified : Bool
  content : List Char
  err : Option (List Char)
deriving DecidableEq, Repr

/-- The body of `addLicense` (tmpl_test.go:397-433) after the rendered
header `lic` has been produced and the file content `b` has been read:
skip generated files, update or keep already-licensed files, otherwise
insert the header after a preserved leading line. -/
def addLicenseWith (lic : List Char) (update : Bool) (year b : List Char) : AddResult :=
  if isGenerated b then ⟨false, b, none⟩
  else if hasLicense b then
    if update && isOutdatedLicense b year then
      match updateExistingLicense b year with
      | (b2, none) => ⟨true, b2, none⟩
      | (_, some e) => ⟨false, b, some e⟩
    else ⟨false, b, none⟩
  else
    let line := hashBang b
    if line = [] then ⟨true, lic ++ b, none⟩
    else
      ⟨true,
       (if line.getLast? = some '\n' then line else line ++ ['\n']) ++
         lic ++ b.drop line.length,
       none⟩

/-- Source `addLicense` (tmpl_test.go:397-433): unrecognized file types return
before the file is even read. -/
def addLicense (path body : List Char) (update : Bool) (year content : List Char) : AddResult :=
  match licenseHeader path body with
  | none => ⟨false, content, none⟩
  | some lic => addLicenseWith lic update year content

/-- The per-file check path of `main` (tmpl_test.go:297-328): success for
unrecognized file types, else the file must have (or count as having) a
license, and in update mode it must not be outdated. -/
def checkFile (path body : List Char) (update : Bool) (year content : List Char) : Bool :=
  match licenseHeader path body with
  | none => true
  | some _ =>
    if !(hasLicense content || isGenerated content) then false
    else if update && (hasLicense content && isOutdatedLicense content year) then false
    else true


/-! ## General lemmas about the embedded primitives -/

theorem prefixOf_iff (l₁ l₂ : List Char) : l₁.isPrefixOf l₂ = true ↔ l₁ <+: l₂ := by simp

theorem indexOfSub_nil (pat : List Char) :
    indexOfSub [] pat = if pat = [] then some 0 else none := by
  rcases pat with _ | ⟨a, as⟩ <;> simp [indexOfSub, List.isPrefixOf]

theorem indexOfSub_cons (c : Char) (cs pat : List Char) :
    indexOfSub (c :: cs) pat =
      if pat <+: (c :: cs) then some 0 else (indexOfSub cs pat).map (· + 1) := by
  by_cases h : pat <+: (c :: cs)
  · rw [if_pos h]
    unfold indexOfSub
    rw [if_pos ((prefixOf_iff _ _).mpr h)]
  · rw [if_neg h]
    conv_lhs => unfold indexOfSub
    rw [if_neg (by simp [prefixOf_iff, h])]

theorem indexOfSub_some_iff (pat : List Char) :
    ∀ (b : List Char) (p : Nat),
      indexOfSub b pat = some p ↔
        (pat <+: b.drop p ∧ ∀ q, q < p → ¬ pat <+: b.drop q) := by
  intro b
  induction b with
  | nil =>
    intro p
    rw [indexOfSub_nil]
    by_cases hp : pat = []
    · subst hp
      rw [if_pos rfl]
      constructor
      · intro h
        have hp0 : p = 0 := by
          have := Option.some.inj h
          omega
        subst hp0
        exact ⟨by simp, by omega⟩
      · rintro ⟨h1, h2⟩
        rcases Nat.eq_zero_or_pos p with h0 | h0
        · subst h0; rfl
        · exact absurd (h2 0 h0) (by simp)
    · rw [if_neg hp]
      constructor
      · intro h; exact absurd h (by simp)
      · rintro ⟨h1, h2⟩
        simp only [List.drop_nil] at h1
        exact absurd (List.prefix_nil.mp h1) hp
  | cons c cs ih =>
    intro p
    rw [indexOfSub_cons]
    by_cases h : pat <+: (c :: cs)
    · rw [if_pos h]
      constructor
      · intro hs
        have hp0 : p = 0 := by
          have := Option.some.inj hs
          omega
        subst hp0
        exact ⟨by simpa using h, by omega⟩
      · rintro ⟨h1, h2⟩
        rcases Nat.eq_zero_or_pos p with h0 | h0
        · subst h0; rfl
        · exact absurd h (by simpa using h2 0 h0)
    · rw [if_neg h]
      constructor
      · intro hs
        rcases Option.map_eq_some'.mp hs with ⟨p', hp', rfl⟩
        rcases (ih p').mp hp' with ⟨h1, h2⟩
        refine ⟨by simpa using h1, ?_⟩
        intro q hq
        rcases q with _ | q'
        · simpa using h
        · simpa using h2 q' (by omega)
      · rintro ⟨h1, h2⟩
        rcases p with _ | p'
        · exact absurd (by simpa using h1) h
        · have : indexOfSub cs pat = some p' :=
            (ih p').mpr ⟨by simpa using h1, fun q hq => by simpa using h2 (q + 1) (by omega)⟩
          rw [this]; rfl

theorem indexOfSub_none_iff (pat : List Char) :
    ∀ b : List Char, indexOfSub b pat = none ↔ ∀ p, ¬ pat <+: b.drop p := by
  intro b
  induction b with
  | nil =>
    rw [indexOfSub_nil]
    by_cases hp : pat = []
    · subst hp
      rw [if_pos rfl]
      simp
    · rw [if_neg hp]
      simp [hp]
  | cons c cs ih =>
    rw [indexOfSub_cons]
    by_cases h : pat <+: (c :: cs)
    · rw [if_pos h]
      constructor
      · intro hs; exact absurd hs (by simp)
      · intro hall; exact absurd h (by simpa using hall 0)
    · rw [if_neg h]
      constructor
      · intro hs
        have := ih.mp (by simpa using hs)
        intro p
        rcases p with _ | p'
        · simpa using h
        · simpa using this p'
      · intro hall
        have : indexOfSub cs pat = none :=
          ih.mpr (fun p => by simpa using hall (p + 1))
        simp [this]

theorem takePre (n : Nat) (l : List Char) : l.take n <+: l :=
  ⟨l.drop n, List.take_append_drop n l⟩

theorem infix_iff_exists_drop (pat b : List Char) :
    pat <:+: b ↔ ∃ p, pat <+: b.drop p := by
  constructor
  · rintro ⟨s, t, rfl⟩
    refine ⟨s.length, t, ?_⟩
    rw [List.append_assoc, List.drop_left]
  · rintro ⟨p, t, ht⟩
    exact ⟨b.take p, t, by rw [List.append_assoc, ht, List.take_append_drop]⟩

theorem containsSub_iff (b pat : List Char) : containsSub b pat = true ↔ pat <:+: b := by
  unfold containsSub
  rw [Option.isSome_iff_exists, infix_iff_exists_drop]
  constructor
  · rintro ⟨p, hp⟩
    exact ⟨p, ((indexOfSub_some_iff pat b p).mp hp).1⟩
  · rintro ⟨p, hp⟩
    by_contra hnone
    push_neg at hnone
    have : indexOfSub b pat = none := by
      cases h : indexOfSub b pat with
      | none => rfl
      | some q => exact absurd h (by intro hq; exact (hnone q) hq)
    exact (indexOfSub_none_iff pat b).mp this p hp

theorem head1000_eq_take (b : List Char) : head1000 b = b.take 1000 := by
  unfold head1000
  by_cases h : b.length < 1000
  · rw [if_pos h, List.take_length, List.take_of_length_le (Nat.le_of_lt h)]
  · rw [if_neg h]

theorem take_min_1000 (b : List Char) : b.take (min 1000 b.length) = b.take 1000 := by
  rcases Nat.le_total 1000 b.length with h | h
  · rw [Nat.min_eq_left h]
  · rw [Nat.min_eq_right h, List.take_length, List.take_of_length_le h]

theorem foldl_append_flatten (f : List Char → List Char) :
    ∀ (L : List (List Char)) (init : List Char),
      L.foldl (fun acc x => acc ++ f x) init = init ++ (L.map f).flatten := by
  intro L
  induction L with
  | nil => intro init; simp
  | cons a as ih =>
    intro init
    simp only [List.foldl_cons, List.map_cons, List.flatten_cons]
    rw [ih, List.append_assoc]

theorem infixAppend (pat A B : List Char) (h : pat <:+: A) : pat <:+: A ++ B := by
  rcases h with ⟨s, t, rfl⟩
  exact ⟨s, t ++ B, by simp⟩

theorem hasLicense_append (l m : List Char) (h : hasLicense l = true) :
    hasLicense (l ++ m) = true := by
  unfold hasLicense at h ⊢
  rw [head1000_eq_take] at h ⊢
  rw [List.take_append_eq_append_take]
  simp only [toLowerStr, List.map_append] at h ⊢
  simp only [Bool.or_eq_true, containsSub_iff] at h ⊢
  rw [or_assoc] at h ⊢
  rcases h with h | h | h
  · exact Or.inl (infixAppend _ _ _ h)
  · exact Or.inr (Or.inl (infixAppend _ _ _ h))
  · exact Or.inr (Or.inr (infixAppend _ _ _ h))

/-! ## Claim theorems -/

/-- Claim C2: for every template body, data and comment style, `render`
emits `style.Top` plus a newline iff `Top` is non-empty, then for each line
of the rendered body the string `style.Mid ++ line` with trailing whitespace
stripped plus a newline, then `style.Bottom` plus a newline iff `Bottom` is
non-empty, then exactly one final blank line; in particular for the `.c`
style and body `HYS` the output is exactly `/*\n * HYS\n */\n\n`. -/
theorem executeTemplate_spec :
    (∀ body top mid bot : List Char,
      executeTemplate body top mid bot =
        (if top = [] then [] else top ++ ['\n']) ++
        ((scanLines body).map (fun line => trimRightSpace (mid ++ line) ++ ['\n'])).flatten ++
        ((if bot = [] then [] else bot ++ ['\n']) ++ ['\n']))
    ∧ executeTemplate ("HYS".toList) ("/*".toList) (" * ".toList) (" */".toList) =
        "/*\n * HYS\n */\n\n".toList := by
  constructor
  · intro body top mid bot
    simp only [executeTemplate]
    rw [foldl_append_flatten]
    by_cases ht : top = [] <;> by_cases hb : bot = [] <;>
      simp [ht, hb, List.append_assoc]
  · decide

/-- Claim C4: `hasLicense b` is true iff the lowercased first
`min 1000 (len b)` bytes of `b` contain one of the three literal keyword
substrings, with the three concrete examples of the spec. -/
theorem hasLicense_spec :
    (∀ b : List Char,
      hasLicense b = true ↔
        (kwCopyright <:+: toLowerStr (b.take (min 1000 b.length)) ∨
         kwMozilla <:+: toLowerStr (b.take (min 1000 b.length)) ∨
         kwSPDX <:+: toLowerStr (b.take (min 1000 b.length))))
    ∧ hasLicense ("Copyright 2000".toList) = true
    ∧ hasLicense ("SPDX: MIT".toList) = false
    ∧ hasLicense ("SPDX-License-Identifier: MIT".toList) = true := by
  refine ⟨?_, by decide, by decide, by decide⟩
  intro b
  unfold hasLicense
  rw [head1000_eq_take, ← take_min_1000]
  simp only [Bool.or_eq_true, containsSub_iff]
  exact or_assoc

/-- Claim C6: for every unlicensed, non-generated file whose first line
starts case-insensitively with one of the fixed markers, insertion keeps
that line at the very top (appending a newline if it lacked one) and places
the rendered header immediately after it. -/
theorem addLicense_preserved_leading_line :
    ∀ (lic year b : List Char) (u : Bool),
      headMarkers.any (fun h => h.isPrefixOf (toLowerStr (firstLine b))) = true →
      isGenerated b = false →
      hasLicense b = false →
      addLicenseWith lic u year b =
        ⟨true,
         (if (firstLine b).getLast? = some '\n' then firstLine b
          else firstLine b ++ ['\n']) ++ lic ++ b.drop (firstLine b).length,
         none⟩ := by
  intro lic year b u hmark hgen hlic
  have hline : hashBang b = firstLine b := by
    unfold hashBang
    rw [if_pos hmark]
  have hne : firstLine b ≠ [] := by
    intro h0
    rw [h0] at hmark
    exact absurd hmark (by decide)
  simp [addLicenseWith, hgen, hlic, hline, hne]

/-- Claim C6 witness: the concrete shebang example of the spec. -/
theorem addLicense_preserved_leading_line_witness :
    addLicenseWith (executeTemplate ("HYS".toList) [] ("// ".toList) [])
        false ("Y".toList) ("#!/bin/bash\ncontent".toList) =
      ⟨true, "#!/bin/bash\n// HYS\n\ncontent".toList, none⟩ :=
  (addLicense_preserved_leading_line _ _ _ false (by decide) (by decide)
    (by decide)).trans (by decide)

/-- Claim C7: a path whose extension (or basename) is not in the
comment-style table is a no-op in mutate mode and always succeeds in check
mode, for every file content. -/
theorem unknown_type_noop :
    ∀ (path body year content : List Char) (u : Bool),
      styleFor (fileExtension path) = none →
      addLicense path body u year content = ⟨false, content, none⟩ ∧
      checkFile path body u year content = true := by
  intro path body year content u hstyle
  have hlh : licenseHeader path body = none := by
    unfold licenseHeader
    rw [hstyle]
  constructor
  · unfold addLicense
    rw [hlh]
  · unfold checkFile
    rw [hlh]

/-- Claim C7 witness: a `.unknown` file with arbitrary content. -/
theorem unknown_type_noop_witness :
    addLicense ("f.unknown".toList) ("HYS".toList) false ("Y".toList) ("content".toList) =
        ⟨false, "content".toList, none⟩ ∧
    checkFile ("f.unknown".toList) ("HYS".toList) false ("Y".toList) ("content".toList) = true :=
  unknown_type_noop ("f.unknown".toList) ("HYS".toList) ("Y".toList) ("content".toList)
    false (by decide)

/-- Claim C10: when no year pattern is found, `updateExistingLicense`
returns the empty byte sequence alongside the error, not its input; the
file content survives at the caller level, where the mutate path leaves the
content unchanged in that situation. -/
theorem updateExistingLicense_error_empty :
    ∀ (b cy lic : List Char),
      parseLicenseYear b = none →
      updateExistingLicense b cy = ([], some unparsableMsg) ∧
      (hasLicense b = true → addLicenseWith lic true cy b = ⟨false, b, none⟩) := by
  intro b cy lic hparse
  constructor
  · unfold updateExistingLicense
    rw [hparse]
  · intro hl
    have hout : isOutdatedLicense b cy = false := by
      unfold isOutdatedLicense
      rw [hparse]
    by_cases hg : isGenerated b = true
    · simp [addLicenseWith, hg]
    · simp [addLicenseWith, hg, hl, hout]

/-- Claim C10 witness: a licensed header with no year token. -/
theorem updateExistingLicense_error_empty_witness :
    updateExistingLicense ("Copyright Acme".toList) ("2021".toList) =
        ([], some unparsableMsg) ∧
    addLicenseWith ("// L\n\n".toList) true ("2021".toList) ("Copyright Acme".toList) =
        ⟨false, "Copyright Acme".toList, none⟩ := by
  have h := updateExistingLicense_error_empty ("Copyright Acme".toList) ("2021".toList)
    ("// L\n\n".toList) (by decide)
  exact ⟨h.1, h.2 (by decide)⟩

/-- Claim C8: the rendering pipeline as written in src/tmpl.go runs the
template through `html/template` (tmpl.go:21), so a holder value containing
an ampersand is entity-escaped in the emitted header, contradicting the
spec requirement of verbatim substitution; the `text/template` execution
used by the main program yields the verbatim header. -/
theorem executeTemplate_html_escapes_holder :
    executeTemplate
        (renderHTMLTemplate [TmplItem.fieldHolder]
          ⟨"Y".toList, "A & B".toList, "S".toList⟩)
        [] ("// ".toList) [] = "// A &amp; B\n\n".toList
    ∧ executeTemplate
        (renderTextTemplate [TmplItem.fieldHolder]
          ⟨"Y".toList, "A & B".toList, "S".toList⟩)
        [] ("// ".toList) [] = "// A & B\n\n".toList := by
  exact ⟨by decide, by decide⟩

/-- Claim C9: `fetchTemplate` as written in src/tmpl.go looks the license
name up by exact match in a lowercase-keyed Go map, so the mixed-case names
accepted by the test suite fail with the unknown-license error while the
lowercase spellings resolve. -/
theorem fetchTemplate_case_sensitive :
    fetchTemplate ("MIT".toList) none =
        .error ("unknown license: \"MIT\"".toList)
    ∧ fetchTemplate ("mit".toList) none = .ok tmplMIT
    ∧ fetchTemplate ("Apache".toList) none =
        .error ("unknown license: \"Apache\"".toList)
    ∧ fetchTemplate ("apache".toList) none = .ok tmplApache := by
  exact ⟨rfl, rfl, rfl, rfl⟩

/-- Claim C1 counterexample: with a rendered template body that contains
none of the license keywords (the `HYS` body used throughout the test
suite), the second run of the mutate path inserts the header again: it
reports modified and produces different bytes than the first run. -/
theorem addLicense_twice_differs :
    (addLicenseWith (executeTemplate ("HYS".toList) [] ("// ".toList) [])
        false ("Y".toList)
        ((addLicenseWith (executeTemplate ("HYS".toList) [] ("// ".toList) [])
            false ("Y".toList) ("content".toList)).content)).modified = true
    ∧ (addLicenseWith (executeTemplate ("HYS".toList) [] ("// ".toList) [])
        false ("Y".toList)
        ((addLicenseWith (executeTemplate ("HYS".toList) [] ("// ".toList) [])
            false ("Y".toList) ("content".toList)).content)).content ≠
      (addLicenseWith (executeTemplate ("HYS".toList) [] ("// ".toList) [])
          false ("Y".toList) ("content".toList)).content := by
  exact ⟨by decide, by decide⟩

/-- Claim C1 (amended): the second application of the mutate path never
mutates and returns byte-identical content provided the first output is
caught by the detection steps (it satisfies `hasLicense` or `isGenerated`,
and in update mode its year is not outdated); moreover, whenever the
rendered header itself satisfies `hasLicense` and the file has no preserved
leading line, the first output always satisfies that detection condition,
as it does for all built-in license templates. -/
theorem addLicense_second_run_noop :
    (∀ (lic year b : List Char) (u : Bool),
      (hasLicense (addLicenseWith lic u year b).content = true ∨
       isGenerated (addLicenseWith lic u year b).content = true) →
      (u = true → isOutdatedLicense (addLicenseWith lic u year b).content year = false) →
      addLicenseWith lic u year ((addLicenseWith lic u year b).content) =
        ⟨false, (addLicenseWith lic u year b).content, none⟩)
    ∧ (∀ (lic year b : List Char),
      hashBang b = [] →
      hasLicense lic = true →
      hasLicense (addLicenseWith lic false year b).content = true ∨
      isGenerated (addLicenseWith lic false year b).content = true) := by
  constructor
  · intro lic year b u hdet hupd
    set c := (addLicenseWith lic u year b).content with hc
    by_cases hg : isGenerated c = true
    · simp [addLicenseWith, hg]
    · have hl : hasLicense c = true := by
        rcases hdet with h | h
        · exact h
        · exact absurd h hg
      cases u with
      | false => simp [addLicenseWith, hg, hl]
      | true =>
        have hod := hupd rfl
        simp [addLicenseWith, hg, hl, hod]
  · intro lic year b hhb hlic
    by_cases hg : isGenerated b = true
    · right
      simp [addLicenseWith, hg]
    · by_cases hl : hasLicense b = true
      · left
        simp [addLicenseWith, hg, hl]
      · left
        have hcontent : (addLicenseWith lic false year b).content = lic ++ b := by
          simp [addLicenseWith, hg, hl, hhb]
        rw [hcontent]
        exact hasLicense_append _ _ hlic

/-- Claim C1 (amended) witness: with the Apache-style body the header
contains `Copyright`, so the second run is a no-op on the concrete file. -/
theorem addLicense_second_run_noop_witness :
    addLicenseWith (executeTemplate ("Copyright 2018 Google LLC".toList) [] ("// ".toList) [])
        false ("2018".toList)
        ((addLicenseWith
            (executeTemplate ("Copyright 2018 Google LLC".toList) [] ("// ".toList) [])
            false ("2018".toList) ("package main\n".toList)).content) =
      ⟨false,
       (addLicenseWith
           (executeTemplate ("Copyright 2018 Google LLC".toList) [] ("// ".toList) [])
           false ("2018".toList) ("package main\n".toList)).content,
       none⟩ :=
  addLicense_second_run_noop.1 _ _ _ false (Or.inl (by decide)) (fun h => nomatch h)

/-! ## Lemmas about the year-pattern matcher -/

theorem preTakeEq (p l : List Char) (n : Nat) (h : p <+: l) (hn : n ≤ p.length) :
    l.take n = p.take n := by
  rcases h with ⟨t, rfl⟩
  rw [List.take_append_eq_append_take, Nat.sub_eq_zero_of_le hn]
  simp

theorem preOfTake (pat x : List Char) (k : Nat) (h : pat <+: x.take k) : pat <+: x :=
  h.trans (takePre k x)

theorem preTakeOfLe (pat x : List Char) (k : Nat) (h : pat <+: x) (hk : pat.length ≤ k) :
    pat <+: x.take k := by
  rcases h with ⟨t, rfl⟩
  rw [List.take_append_eq_append_take, List.take_of_length_le hk]
  exact ⟨t.take (k - pat.length), rfl⟩

theorem matchAt_eq_none_iff (l : List Char) :
    matchAt l = none ↔
      ¬ ((l.take 4).length = 4 ∧ (l.take 4).all isDigitChar = true) := by
  unfold matchAt
  by_cases h : (l.take 4).length = 4 ∧ (l.take 4).all isDigitChar = true
  · rw [if_pos h]
    constructor
    · intro hx
      by_cases h2 : (l.drop 4).take 1 = ['-'] ∧ ((l.drop 5).take 4).length = 4 ∧
          ((l.drop 5).take 4).all isDigitChar = true
      · rw [if_pos h2] at hx; exact absurd hx (by simp)
      · rw [if_neg h2] at hx; exact absurd hx (by simp)
    · intro hx; exact absurd h hx
  · rw [if_neg h]
    exact ⟨fun _ => h, fun _ => rfl⟩

theorem matchAt_raw_facts (l : List Char) (m : YearMatch) (h : matchAt l = some m) :
    m.raw <+: l ∧ m.raw.take 4 = l.take 4 ∧ 4 ≤ m.raw.length ∧
      (l.take 4).length = 4 ∧ (l.take 4).all isDigitChar = true := by
  unfold matchAt at h
  by_cases h1 : (l.take 4).length = 4 ∧ (l.take 4).all isDigitChar = true
  · rw [if_pos h1] at h
    by_cases h2 : (l.drop 4).take 1 = ['-'] ∧ ((l.drop 5).take 4).length = 4 ∧
        ((l.drop 5).take 4).all isDigitChar = true
    · rw [if_pos h2] at h
      have hm := (Option.some.inj h).symm
      have hlen9 : 9 ≤ l.length := by
        have := h2.2.1
        rw [List.length_take, List.length_drop] at this
        omega
      constructor
      · rw [hm]; exact takePre 9 l
      constructor
      · rw [hm]
        show (l.take 9).take 4 = l.take 4
        rw [List.take_take]
        norm_num
      constructor
      · rw [hm]
        show 4 ≤ (l.take 9).length
        rw [List.length_take]
        omega
      · exact h1
    · rw [if_neg h2] at h
      have hm := (Option.some.inj h).symm
      constructor
      · rw [hm]; exact takePre 4 l
      constructor
      · rw [hm]
        show (l.take 4).take 4 = l.take 4
        rw [List.take_take]
        norm_num
      constructor
      · rw [hm]
        show 4 ≤ (l.take 4).length
        rw [h1.1]
      · exact h1
  · rw [if_neg h1] at h
    exact absurd h (by simp)

theorem matchAt_sub_shape (l : List Char) (m : YearMatch) (h : matchAt l = some m) :
    (m.sub2 = [] ∧ m.sub3 = m.raw ∧ m.raw.length = 4) ∨
    (m.sub2 = m.raw.take 4 ∧ m.sub3 = m.raw.drop 5 ∧ m.raw.length = 9) := by
  unfold matchAt at h
  by_cases h1 : (l.take 4).length = 4 ∧ (l.take 4).all isDigitChar = true
  · rw [if_pos h1] at h
    by_cases h2 : (l.drop 4).take 1 = ['-'] ∧ ((l.drop 5).take 4).length = 4 ∧
        ((l.drop 5).take 4).all isDigitChar = true
    · rw [if_pos h2] at h
      have hm := (Option.some.inj h).symm
      have hlen9 : 9 ≤ l.length := by
        have := h2.2.1
        rw [List.length_take, List.length_drop] at this
        omega
      right
      rw [hm]
      refine ⟨?_, ?_, ?_⟩
      · show l.take 4 = (l.take 9).take 4
        rw [List.take_take]
        norm_num
      · show (l.drop 5).take 4 = (l.take 9).drop 5
        rw [List.drop_take]
      · show (l.take 9).length = 9
        rw [List.length_take]
        omega
    · rw [if_neg h2] at h
      have hm := (Option.some.inj h).symm
      left
      rw [hm]
      exact ⟨rfl, rfl, h1.1⟩
  · rw [if_neg h1] at h
    exact absurd h (by simp)

theorem matchAt_some_of_prePat (l₀ l pat : List Char) (m : YearMatch)
    (h : matchAt l₀ = some m) (hraw : m.raw = pat) (hp : pat <+: l) :
    matchAt l ≠ none := by
  have hf := matchAt_raw_facts l₀ m h
  rw [hraw] at hf
  intro hnone
  rw [matchAt_eq_none_iff] at hnone
  apply hnone
  have htake : l.take 4 = pat.take 4 := preTakeEq pat l 4 hp hf.2.2.1
  rw [htake, hf.2.1]
  exact ⟨hf.2.2.2.1, hf.2.2.2.2⟩

theorem findYearAux_matchAt :
    ∀ (l : List Char) (p : Nat) (m : YearMatch),
      findYearAux l = some (p, m) →
      matchAt (l.drop p) = some m ∧ ∀ q, q < p → matchAt (l.drop q) = none := by
  intro l
  induction l with
  | nil => intro p m h; exact absurd h (by simp [findYearAux])
  | cons c cs ih =>
    intro p m h
    unfold findYearAux at h
    cases hma : matchAt (c :: cs) with
    | some m0 =>
      rw [hma] at h
      have heq := Option.some.inj h
      have hp : p = 0 := (congrArg Prod.fst heq).symm
      have hm : m0 = m := congrArg Prod.snd heq
      subst hp
      rw [← hm]
      exact ⟨hma, by omega⟩
    | none =>
      rw [hma] at h
      simp only [Option.map_eq_some'] at h
      rcases h with ⟨⟨p0, m0⟩, hfy, heq⟩
      have hp : p = p0 + 1 := congrArg Prod.fst heq.symm
      have hm : m0 = m := congrArg Prod.snd heq
      subst hp
      rw [hm] at hfy
      rcases ih p0 m hfy with ⟨h1, h2⟩
      refine ⟨by simpa using h1, ?_⟩
      intro q hq
      rcases q with _ | q0
      · simpa using hma
      · simpa using h2 q0 (by omega)

theorem findYearAux_indexOf (l : List Char) (p : Nat) (m : YearMatch)
    (h : findYearAux l = some (p, m)) : indexOfSub l m.raw = some p := by
  rcases findYearAux_matchAt l p m h with ⟨hp, hq⟩
  have hf := matchAt_raw_facts _ _ hp
  rw [indexOfSub_some_iff]
  refine ⟨hf.1, ?_⟩
  intro q hlt hpre
  exact (matchAt_some_of_prePat (l.drop p) (l.drop q) m.raw m hp rfl hpre) (hq q hlt)

theorem indexOfSub_take_to_full (b pat : List Char) (n p : Nat)
    (hne : pat ≠ []) (h : indexOfSub (b.take n) pat = some p) :
    indexOfSub b pat = some p := by
  rcases (indexOfSub_some_iff pat (b.take n) p).mp h with ⟨h1, h2⟩
  have hlen1 : pat.length ≤ (b.take n).length - p := by
    rcases h1 with ⟨t, ht⟩
    have hlen := congrArg List.length ht
    rw [List.length_append, List.length_drop] at hlen
    omega
  have hlen2 : (b.take n).length ≤ n := by
    rw [List.length_take]
    omega
  have hplen : 0 < pat.length := List.length_pos.mpr hne
  rw [indexOfSub_some_iff]
  constructor
  · rw [List.drop_take] at h1
    exact preOfTake _ _ _ h1
  · intro q hlt hpre
    apply h2 q hlt
    rw [List.drop_take]
    exact preTakeOfLe _ _ _ hpre (by omega)

theorem raw_ne_nil (l : List Char) (m : YearMatch) (h : matchAt l = some m) :
    m.raw ≠ [] := by
  have hf := matchAt_raw_facts _ _ h
  intro h0
  rw [h0] at hf
  have := hf.2.2.1
  simp at this

/-- The first match of `parseLicenseYear` also locates the first occurrence
of the matched text in the whole byte sequence, which is where
`updateExistingLicense` splices. -/
theorem findYear_indexOf_full (b : List Char) (p : Nat) (m : YearMatch)
    (h : findYearAux (head1000 b) = some (p, m)) :
    indexOfSub b m.raw = some p := by
  have h1 : indexOfSub (head1000 b) m.raw = some p := findYearAux_indexOf _ _ _ h
  have hne : m.raw ≠ [] :=
    raw_ne_nil _ _ (findYearAux_matchAt _ _ _ h).1
  rw [head1000_eq_take] at h1
  exact indexOfSub_take_to_full b m.raw 1000 p hne h1

theorem parseLicenseYear_eq_some (b : List Char) (p : Nat) (m : YearMatch)
    (h : findYearAux (head1000 b) = some (p, m)) :
    parseLicenseYear b =
      some ⟨if m.sub2 ≠ [] then m.sub2 else m.sub3, m.sub3, m.raw⟩ := by
  unfold parseLicenseYear
  rw [h]

theorem parseLicenseYear_eq_none (b : List Char)
    (h : findYearAux (head1000 b) = none) : parseLicenseYear b = none := by
  unfold parseLicenseYear
  rw [h]

/-- Claim C5: `updateExistingLicense` errs iff no year pattern is found;
with a matching current year it returns its input unchanged without error;
otherwise it succeeds and performs one substring splice at the offset of the
first regular-expression match, replacing exactly the matched token with
`creation-currentYear` and preserving every other byte. -/
theorem updateExistingLicense_contract :
    (∀ b cy : List Char,
      (updateExistingLicense b cy).2.isSome = true ↔ parseLicenseYear b = none)
    ∧ (∀ (b cy : List Char) (info : LicenseYear),
        parseLicenseYear b = some info →
        (info.creation = cy ∨ info.lastModification = cy) →
        updateExistingLicense b cy = (b, none))
    ∧ (∀ (b cy : List Char) (info : LicenseYear),
        parseLicenseYear b = some info →
        info.creation ≠ cy → info.lastModification ≠ cy →
        ∃ p m, findYearAux (head1000 b) = some (p, m) ∧
          m.raw = info.currentString ∧
          indexOfSub b info.currentString = some p ∧
          updateExistingLicense b cy =
            (b.take p ++ (info.creation ++ ('-' :: cy)) ++
               b.drop (p + info.currentString.length), none)) := by
  refine ⟨?_, ?_, ?_⟩
  · intro b cy
    cases h : parseLicenseYear b with
    | none => simp [updateExistingLicense, h]
    | some y =>
      by_cases hc : y.creation = cy ∨ y.lastModification = cy
      · simp [updateExistingLicense, h, hc]
      · simp [updateExistingLicense, h, hc]
  · intro b cy info hparse hcond
    simp only [updateExistingLicense, hparse]
    rw [if_pos hcond]
  · intro b cy info hparse hc hm
    cases hfy : findYearAux (head1000 b) with
    | none =>
      rw [parseLicenseYear_eq_none b hfy] at hparse
      exact absurd hparse (by simp)
    | some pm =>
      obtain ⟨p, m⟩ := pm
      have hinfo : ({ creation := if m.sub2 ≠ [] then m.sub2 else m.sub3,
                      lastModification := m.sub3,
                      currentString := m.raw } : LicenseYear) = info :=
        Option.some.inj ((parseLicenseYear_eq_some b p m hfy).symm.trans hparse)
      have hraw : m.raw = info.currentString := by rw [← hinfo]
      have hidx : indexOfSub b info.currentString = some p := by
        rw [← hraw]
        exact findYear_indexOf_full b p m hfy
      refine ⟨p, m, rfl, hraw, hidx, ?_⟩
      simp only [updateExistingLicense, hparse]
      rw [if_neg (fun h => h.elim hc hm), hidx]
      rfl

/-- Claim C5 witness: a single present year equal to the current year is a
no-op without error. -/
theorem updateExistingLicense_contract_witness :
    updateExistingLicense ("Copyright 2021 Acme".toList) ("2021".toList) =
      ("Copyright 2021 Acme".toList, none) :=
  updateExistingLicense_contract.2.1 ("Copyright 2021 Acme".toList) ("2021".toList)
    ⟨"2021".toList, "2021".toList, "2021".toList⟩ (by decide) (Or.inl rfl)

/-- Claim C3: whenever the first year-pattern match in the first 1000 bytes
is the token `2015-2017`, parsing yields creation `2015`, last modification
`2017` and raw text `2015-2017`, and updating with current year `2021`
splices exactly that token into `2015-2021`, byte-for-byte preserving the
rest (in particular a following `,2019`). -/
theorem parseLicenseYear_multiyear :
    ∀ (b : List Char) (p : Nat) (m : YearMatch),
      findYearAux (head1000 b) = some (p, m) →
      m.raw = "2015-2017".toList →
      parseLicenseYear b =
          some ⟨"2015".toList, "2017".toList, "2015-2017".toList⟩
      ∧ indexOfSub b ("2015-2017".toList) = some p
      ∧ updateExistingLicense b ("2021".toList) =
          (b.take p ++ "2015-2021".toList ++ b.drop (p + 9), none) := by
  intro b p m hfy hraw
  have hma := (findYearAux_matchAt _ _ _ hfy).1
  have hshape := matchAt_sub_shape _ _ hma
  have hsub2 : m.sub2 = "2015".toList := by
    rcases hshape with ⟨_, _, hlen⟩ | ⟨hs2, _, _⟩
    · rw [hraw] at hlen
      exact absurd hlen (by decide)
    · rw [hs2, hraw]
      decide
  have hsub3 : m.sub3 = "2017".toList := by
    rcases hshape with ⟨_, _, hlen⟩ | ⟨_, hs3, _⟩
    · rw [hraw] at hlen
      exact absurd hlen (by decide)
    · rw [hs3, hraw]
      decide
  have hparse : parseLicenseYear b =
      some ⟨"2015".toList, "2017".toList, "2015-2017".toList⟩ := by
    rw [parseLicenseYear_eq_some b p m hfy, hsub2, hsub3, hraw]
    decide
  have hidx : indexOfSub b ("2015-2017".toList) = some p := by
    rw [← hraw]
    exact findYear_indexOf_full b p m hfy
  refine ⟨hparse, hidx, ?_⟩
  simp only [updateExistingLicense, hparse]
  rw [if_neg (by decide), hidx]
  rfl

/-- Claim C3 witness: the concrete example of the spec. -/
theorem parseLicenseYear_multiyear_witness :
    parseLicenseYear ("Copyright 2015-2017,2019 Acme".toList) =
        some ⟨"2015".toList, "2017".toList, "2015-2017".toList⟩
    ∧ updateExistingLicense ("Copyright 2015-2017,2019 Acme".toList) ("2021".toList) =
        ("Copyright 2015-2021,2019 Acme".toList, none) := by
  have h := parseLicenseYear_multiyear ("Copyright 2015-2017,2019 Acme".toList) 10
    ⟨"2015-2017".toList, "2015".toList, "2017".toList⟩ (by decide) (by decide)
  exact ⟨h.1, h.2.2.trans (by decide)⟩

end AddLicense
